import Mathlib

/-!
Verification of `pyspim/interp/affine.py` against its design document.

The Python module is shallowly embedded below.  Pure numeric code is
translated to functions over `ℕ` / `ℤ` / `ℚ` (and `ℝ` for the Cholesky
based matrix decomposition, which uses square roots); code that raises
exceptions is translated to `Except String`; the CUDA kernels themselves
are opaque device collaborators, so a kernel invocation is modelled as a
record of the module, kernel name, launch geometry and scalar arguments
that the Python code passes to the device.
-/

namespace PySpim

/-- Element types distinguished by the module.  `other` stands for any
dtype outside the supported pair (for instance `float64`). -/
inductive Dtype where
  | uint16 : Dtype
  | float32 : Dtype
  | other : Dtype
deriving DecidableEq

/-- A device kernel handle: (CUDA module, template-instantiated kernel name),
as produced by `RawModule.get_function`. -/
abbrev Kernel := String × String

/-- Embedding of `_get_kernel` (affine.py lines 58-85).  The result is
`Except.error e` when the Python code raises `ValueError(e)`,
`Except.ok none` when Python falls off the end of the function and
returns `None`, and `Except.ok (some k)` when a kernel is returned.
The `nearest` branch mirrors the source exactly: its condition is
`dtype == cupy.uint16 or preserve_dtype`, and it has no `else: raise`. -/
def _get_kernel (dtype : Dtype) (method : String) (preserve_dtype : Bool) :
    Except String (Option Kernel) :=
  if method = "linear" then
    if dtype = Dtype.uint16 then
      if preserve_dtype then Except.ok (some ("linear", "affineTransformLerpUShort"))
      else Except.ok (some ("linear", "affineTransformLerp<unsigned short>"))
    else if dtype = Dtype.float32 then
      Except.ok (some ("linear", "affineTransformLerp<float>"))
    else Except.error "invalid datatype"
  else if method = "cubspl" then
    if dtype = Dtype.uint16 then
      if preserve_dtype then Except.ok (some ("cubspl", "affineTransformCubSplUShort"))
      else Except.ok (some ("cubspl", "affineTransformCubSpl<unsigned short>"))
    else if dtype = Dtype.float32 then
      Except.ok (some ("cubspl", "affineTransformCubSpl<float>"))
    else Except.error "invalid datatype"
  else if method = "nearest" then
    if dtype = Dtype.uint16 ∨ preserve_dtype = true then
      Except.ok (some ("nearest", "affineTransformNearest<unsigned short>"))
    else if dtype = Dtype.float32 then
      Except.ok (some ("nearest", "affineTransformNearest<float>"))
    else Except.ok none
  else Except.error "invalid interpolation method"

/-- A typed device-resident (or host) buffer: shape in (Z,Y,X) order,
element type, and residency flag (`onDevice = true` models a cupy array). -/
structure Volume where
  shape : ℕ × ℕ × ℕ
  dtype : Dtype
  onDevice : Bool
deriving DecidableEq

/-- A recorded launch of a blend kernel: which kernel, the launch
geometry, and the shape arguments Python passes after the matrix
(`*E.shape, *N.shape` resp. `*S.shape, *N.shape`). -/
structure BlendCall where
  kernel : Kernel
  grid : ℕ × ℕ × ℕ
  block : ℕ × ℕ × ℕ
  shapeArgs : (ℕ × ℕ × ℕ) × (ℕ × ℕ × ℕ)
deriving DecidableEq

/-- Embedding of `maxblend_into_existing` (affine.py lines 253-263).
The source performs no validation at all: it selects the max-blend
kernel from the linear module when `interp_method == 'linear'` and from
the cubic-spline module otherwise, then launches it. -/
def maxblend_into_existing (E N : Volume)
    (interp_method : String) (lp : (ℕ × ℕ × ℕ) × (ℕ × ℕ × ℕ)) :
    Except String BlendCall :=
  let kernel : Kernel :=
    if interp_method = "linear" then ("linear", "affineTransformMaxBlend")
    else ("cubspl", "affineTransformMaxBlend")
  Except.ok { kernel := kernel, grid := lp.1, block := lp.2,
              shapeArgs := (E.shape, N.shape) }

/-- Embedding of `meanblend_into_existing` (affine.py lines 266-279).
No shape validation either; an unknown method raises `ValueError`. -/
def meanblend_into_existing (S C N : Volume)
    (interp_method : String) (lp : (ℕ × ℕ × ℕ) × (ℕ × ℕ × ℕ)) :
    Except String BlendCall :=
  if interp_method = "linear" then
    Except.ok { kernel := ("linear", "affineTransformMeanBlend"),
                grid := lp.1, block := lp.2, shapeArgs := (S.shape, N.shape) }
  else if interp_method = "cubspl" then
    Except.ok { kernel := ("cubspl", "affineTransformMeanBlend"),
                grid := lp.1, block := lp.2, shapeArgs := (S.shape, N.shape) }
  else Except.error "invalid interpolation method"

/-! ### Chunk planner -/

/-- A chunk window: one half-open index range `(lo, hi)` per axis, in
(Z,Y,X) order, mirroring the `[slice(l, r), ...]` triples the source builds. -/
abbrev Window := (ℕ × ℕ) × (ℕ × ℕ) × (ℕ × ℕ)

/-- The `while chunk_dim * n < dim: n += 1` loop of `_pad_amount`
(affine.py lines 224-226), written with explicit fuel; `none` models the
loop not terminating within the given fuel (with `chunk_dim = 0` and
`dim > 0` the Python loop indeed never terminates). -/
def pad_loop (dim chunk_dim : ℕ) : ℕ → ℕ → Option ℕ
  | 0, n => if chunk_dim * n < dim then none else some n
  | fuel + 1, n => if chunk_dim * n < dim then pad_loop dim chunk_dim fuel (n + 1) else some n

/-- Embedding of `_pad_amount` (affine.py lines 221-227).  `none` models
the `assert dim >= chunk_dim` failing, or the search loop diverging.
Fuel `dim` is sufficient whenever `chunk_dim ≥ 1`. -/
def _pad_amount (dim chunk_dim : ℕ) : Option ℕ :=
  if chunk_dim ≤ dim then (pad_loop dim chunk_dim dim 1).map (fun n => chunk_dim * n - dim)
  else none

/-- `chunk_shape` normalisation from `_calculate_array_chunks`: an `int`
is broadcast to a 3-tuple. -/
def resolveChunk : ℕ ⊕ (ℕ × ℕ × ℕ) → ℕ × ℕ × ℕ
  | Sum.inl n => (n, n, n)
  | Sum.inr t => t

/-- One axis of a chunk window: `idx0 = m * chunk`, `idx1 = idx0 + chunk`,
clamped to the true shape (`right = shape if i1 > shape else i1`). -/
def axWindow (s cdim m : ℕ) : ℕ × ℕ :=
  (m * cdim, if m * cdim + cdim > s then s else m * cdim + cdim)

/-- Embedding of `_calculate_array_chunks` (affine.py lines 230-250).
The list of chunk-index triples is the lexicographic product
`itertools.product(range(n0), range(n1), range(n2))`; `none` models a
Python `AssertionError`, non-termination of `_pad_amount`, or the
`ZeroDivisionError` raised by `s // 0`. -/
def _calculate_array_chunks (z r c : ℕ) (chunk_shape : ℕ ⊕ (ℕ × ℕ × ℕ)) :
    Option (List Window) :=
  let cs := resolveChunk chunk_shape
  match _pad_amount z cs.1, _pad_amount r cs.2.1, _pad_amount c cs.2.2 with
  | some p0, some p1, some p2 =>
    if cs.1 = 0 ∨ cs.2.1 = 0 ∨ cs.2.2 = 0 then none
    else
      let n0 := (z + p0) / cs.1
      let n1 := (r + p1) / cs.2.1
      let n2 := (c + p2) / cs.2.2
      some (((List.range n0) ×ˢ ((List.range n1) ×ˢ (List.range n2))).map
        (fun m => (axWindow z cs.1 m.1, axWindow r cs.2.1 m.2.1, axWindow c cs.2.2 m.2.2)))
  | _, _, _ => none

/-- Membership of a coordinate in one axis range, half-open. -/
def inAx (p : ℕ × ℕ) (v : ℕ) : Prop := p.1 ≤ v ∧ v < p.2

/-- Membership of a voxel in a chunk window. -/
def inWin (w : Window) (v : ℕ × ℕ × ℕ) : Prop :=
  inAx w.1 v.1 ∧ inAx w.2.1 v.2.1 ∧ inAx w.2.2 v.2.2

instance (w : Window) (v : ℕ × ℕ × ℕ) : Decidable (inWin w v) := by
  unfold inWin inAx; infer_instance

/-- A pair of concretely mismatched buffers used as counterexample input. -/
def volA : Volume := { shape := (1, 1, 1), dtype := Dtype.float32, onDevice := true }

/-- The second of the mismatched buffers. -/
def volB : Volume := { shape := (2, 2, 2), dtype := Dtype.float32, onDevice := true }

/-! ### Output-shape computation (exact rational model of the float code) -/

/-- The largest of eight rationals (the `numpy` max over the eight
transformed corners). -/
def max8 (a b c d e f g h : ℚ) : ℚ :=
  max (max (max a b) (max c d)) (max (max e f) (max g h))

/-- The least of eight rationals. -/
def min8 (a b c d e f g h : ℚ) : ℚ :=
  min (min (min a b) (min c d)) (min (min e f) (min g h))

/-- Row `i` of `t @ coord` for one corner `p = (x, y, z)` of the input
box, with homogeneous coordinate `hom`: the source stacks a row of zeros
under the corner matrix (`hom = 0`), while the spec describes a full
linear-plus-translation action (`hom = 1`). -/
def cval (T : Matrix (Fin 4) (Fin 4) ℚ) (i : Fin 4) (hom : ℚ) (p : ℚ × ℚ × ℚ) : ℚ :=
  T i 0 * p.1 + T i 1 * p.2.1 + T i 2 * p.2.2 + T i 3 * hom

/-- `numpy.ptp` (max − min) of row `i` of the transformed corner matrix,
the corners `(0|x, 0|y, 0|z)` enumerated in the order produced by
`itertools.product((0,x), (0,y), (0,z))`. -/
def ptpAxis (T : Matrix (Fin 4) (Fin 4) ℚ) (i : Fin 4) (hom x y z : ℚ) : ℚ :=
  max8 (cval T i hom (0, 0, 0)) (cval T i hom (0, 0, z))
      (cval T i hom (0, y, 0)) (cval T i hom (0, y, z))
      (cval T i hom (x, 0, 0)) (cval T i hom (x, 0, z))
      (cval T i hom (x, y, 0)) (cval T i hom (x, y, z)) -
    min8 (cval T i hom (0, 0, 0)) (cval T i hom (0, 0, z))
      (cval T i hom (0, y, 0)) (cval T i hom (0, y, z))
      (cval T i hom (x, 0, 0)) (cval T i hom (x, 0, z))
      (cval T i hom (x, y, 0)) (cval T i hom (x, y, z))

/-- Embedding of `output_shape_for_transform` (affine.py lines 106-123):
the (Z,Y,X) input shape is reversed into (X,Y,Z) corner coordinates, a
row of zeros is stacked as the homogeneous coordinate, all eight corners
are pushed through `t`, and the ceiling of each row's peak-to-peak extent
is returned, reversed back to (Z,Y,X). -/
def output_shape_for_transform (T : Matrix (Fin 4) (Fin 4) ℚ)
    (input_shape : ℤ × ℤ × ℤ) : ℤ × ℤ × ℤ :=
  let x : ℚ := (input_shape.2.2 : ℚ)
  let y : ℚ := (input_shape.2.1 : ℚ)
  let z : ℚ := (input_shape.1 : ℚ)
  (⌈ptpAxis T 2 0 x y z⌉, ⌈ptpAxis T 1 0 x y z⌉, ⌈ptpAxis T 0 0 x y z⌉)

/-- The output-shape computation as the spec's words describe it (claim
C3's reference point): push all eight corners through the full
linear-plus-translation action of `T` (homogeneous coordinate 1), take
component-wise ranges, round up. -/
def output_shape_spec (T : Matrix (Fin 4) (Fin 4) ℚ)
    (input_shape : ℤ × ℤ × ℤ) : ℤ × ℤ × ℤ :=
  let x : ℚ := (input_shape.2.2 : ℚ)
  let y : ℚ := (input_shape.2.1 : ℚ)
  let z : ℚ := (input_shape.1 : ℚ)
  (⌈ptpAxis T 2 1 x y z⌉, ⌈ptpAxis T 1 1 x y z⌉, ⌈ptpAxis T 0 1 x y z⌉)

/-- Explicit 4×4 matrix inverse over ℚ via the adjugate: a computable,
exact model of `numpy.linalg.inv` on invertible matrices. -/
def inv4 (T : Matrix (Fin 4) (Fin 4) ℚ) : Matrix (Fin 4) (Fin 4) ℚ :=
  (T.det)⁻¹ • T.adjugate

/-- Embedding of `output_shape_for_inv_transform` (affine.py lines
126-140): invert the matrix and delegate to the forward computation. -/
def output_shape_for_inv_transform (T : Matrix (Fin 4) (Fin 4) ℚ)
    (input_shape : ℤ × ℤ × ℤ) : ℤ × ℤ × ℤ :=
  output_shape_for_transform (inv4 T) input_shape


/-! ### Volume resampling and the distributed coordinator -/

/-- Modelled from the spec: `launch_params_for_volume` is imported from
`pyspim._util`, which is not part of this repository snapshot.  Per the
spec, the grid dimensions are the per-axis ceiling of the output shape
over the block shape.  No claim below depends on its value. -/
def launch_params_for_volume (shp : ℤ × ℤ × ℤ)
    (block_size_z block_size_y block_size_x : ℕ) : (ℕ × ℕ × ℕ) × (ℕ × ℕ × ℕ) :=
  (((shp.1.toNat + block_size_z - 1) / block_size_z,
    (shp.2.1.toNat + block_size_y - 1) / block_size_y,
    (shp.2.2.toNat + block_size_x - 1) / block_size_x),
   (block_size_z, block_size_y, block_size_x))

/-- What a successful `transform` call produces: the selected kernel, the
launch geometry, and the freshly allocated output buffer (shape, dtype
and contents as of the moment the device kernel is invoked). -/
structure TransformResult where
  kernel : Kernel
  launch : (ℕ × ℕ × ℕ) × (ℕ × ℕ × ℕ)
  outShape : ℤ × ℤ × ℤ
  outDtype : Dtype
  outData : ℕ × ℕ × ℕ → ℚ

/-- Embedding of `transform` (affine.py lines 143-187): non-cupy input
raises `ValueError`; the kernel is selected first (`_get_kernel` may
raise, or return `None`, in which case Python raises a `TypeError` when
calling it); a missing `out_shp` is computed from the input's shape; the
output is allocated with `cupy.zeros` and dtype
`A.dtype if preserve_dtype else cupy.float32`. -/
def transform (A : Volume) (T : Matrix (Fin 4) (Fin 4) ℚ) (interp_method : String)
    (preserve_dtype : Bool) (out_shp : Option (ℤ × ℤ × ℤ))
    (block_size_z block_size_y block_size_x : ℕ) : Except String TransformResult :=
  if A.onDevice then
    match _get_kernel A.dtype interp_method preserve_dtype with
    | Except.error e => Except.error e
    | Except.ok none => Except.error "TypeError: kernel is None"
    | Except.ok (some k) =>
      let shp := match out_shp with
        | none => output_shape_for_transform T
            ((A.shape.1 : ℤ), (A.shape.2.1 : ℤ), (A.shape.2.2 : ℤ))
        | some s => s
      Except.ok { kernel := k
                  launch := launch_params_for_volume shp
                    block_size_z block_size_y block_size_x
                  outShape := shp
                  outDtype := if preserve_dtype then A.dtype else Dtype.float32
                  outData := fun _ => 0 }
  else Except.error "only works on cupy arrays"

/-- The state `_transform_distributed` has built when its body ends: the
output array opened zero-filled, the chunk windows, the filled GPU-id
queue — and the list of worker tasks actually submitted to the pool. -/
structure DistState where
  kernel : Option Kernel
  outPath : String
  outShape : ℤ × ℤ × ℤ
  outDtype : Dtype
  outFill : ℚ
  chunks : List Window
  gpuQueue : List ℕ
  dispatched : List (Window × ℕ)
deriving DecidableEq

/-- Embedding of `_transform_distributed` (affine.py lines 190-210).  The
source selects a kernel, resolves the output shape, opens the output
array zero-filled, computes the chunk windows, opens a process pool and a
manager, and fills the GPU-id queue — and then the function body simply
ends: no task is ever submitted, so `dispatched` is always empty.  The
`if cupy.get_array_module(A) == cupy` guard has no `else`, so a host
array makes the whole body a no-op returning `None` (`Except.ok none`). -/
def _transform_distributed (A : Volume) (out_path : String)
    (T : Matrix (Fin 4) (Fin 4) ℚ) (interp_method : String) (preserve_dtype : Bool)
    (out_shp : Option (ℤ × ℤ × ℤ)) (chunk_size : ℕ ⊕ (ℕ × ℕ × ℕ))
    (block_size : ℕ × ℕ × ℕ) (n_gpu : ℕ) : Except String (Option DistState) :=
  if A.onDevice then
    match _get_kernel A.dtype interp_method preserve_dtype with
    | Except.error e => Except.error e
    | Except.ok ko =>
      let shp := match out_shp with
        | none => output_shape_for_transform T
            ((A.shape.1 : ℤ), (A.shape.2.1 : ℤ), (A.shape.2.2 : ℤ))
        | some s => s
      match _calculate_array_chunks shp.1.toNat shp.2.1.toNat shp.2.2.toNat chunk_size with
      | none => Except.error "chunk computation fails"
      | some ws =>
        Except.ok (some
          { kernel := ko, outPath := out_path, outShape := shp,
            outDtype := if preserve_dtype then A.dtype else Dtype.float32,
            outFill := 0, chunks := ws, gpuQueue := List.range n_gpu,
            dispatched := [] })
  else Except.ok none

/-- Embedding of `_transform_chunk` (affine.py lines 213-218): the entire
body is `raise NotImplementedError()`. -/
def _transform_chunk (A out : Volume) (T : Matrix (Fin 4) (Fin 4) ℚ)
    (interp_method : String) (preserve_dtype : Bool)
    (block_size : ℕ × ℕ × ℕ) (chunk : Window) : Except String Unit :=
  Except.error "NotImplementedError"

/-- Concrete device-resident input used to exercise `transform` and the
distributed coordinator. -/
def tvol : Volume := { shape := (4, 4, 4), dtype := Dtype.uint16, onDevice := true }


/-! ### Affine matrix decomposition (over ℝ, since Cholesky takes square roots) -/

open Matrix

noncomputable section

/-- The translation part `A[:-1,-1]` extracted by `decompose_transform`. -/
def trans_part (A : Matrix (Fin 4) (Fin 4) ℝ) : Fin 3 → ℝ := fun i => A i.castSucc 3

/-- The linear block `A[:-1,:-1]` (`RZS` in the source). -/
def RZS (A : Matrix (Fin 4) (Fin 4) ℝ) : Matrix (Fin 3) (Fin 3) ℝ :=
  Matrix.of fun i j => A i.castSucc j.castSucc

/-- The Gram matrix `np.dot(RZS.T, RZS)` fed to the Cholesky factorisation. -/
def gram (A : Matrix (Fin 4) (Fin 4) ℝ) : Matrix (Fin 3) (Fin 3) ℝ :=
  (RZS A)ᵀ * RZS A

/-- Scalar entries of the 3×3 Cholesky factor in closed form; `cholZS` below
is `np.linalg.cholesky(gram).T`, the upper-triangular factor with positive
diagonal — `cholZS_mul_self` proves `ZSᵀ · ZS = gram`, which (with the
positive diagonal) characterises the Cholesky factor numpy computes. -/
def cholL11 (G : Matrix (Fin 3) (Fin 3) ℝ) : ℝ := Real.sqrt (G 0 0)
def cholL21 (G : Matrix (Fin 3) (Fin 3) ℝ) : ℝ := G 1 0 / cholL11 G
def cholL31 (G : Matrix (Fin 3) (Fin 3) ℝ) : ℝ := G 2 0 / cholL11 G
def cholD2 (G : Matrix (Fin 3) (Fin 3) ℝ) : ℝ := G 1 1 - cholL21 G ^ 2
def cholL22 (G : Matrix (Fin 3) (Fin 3) ℝ) : ℝ := Real.sqrt (cholD2 G)
def cholL32 (G : Matrix (Fin 3) (Fin 3) ℝ) : ℝ :=
  (G 2 1 - cholL31 G * cholL21 G) / cholL22 G
def cholD3 (G : Matrix (Fin 3) (Fin 3) ℝ) : ℝ :=
  G 2 2 - cholL31 G ^ 2 - cholL32 G ^ 2
def cholL33 (G : Matrix (Fin 3) (Fin 3) ℝ) : ℝ := Real.sqrt (cholD3 G)

/-- `np.linalg.cholesky(G).T` for the 3×3 SPD matrix `G`. -/
def cholZS (G : Matrix (Fin 3) (Fin 3) ℝ) : Matrix (Fin 3) (Fin 3) ℝ :=
  Matrix.of ![![cholL11 G, cholL21 G, cholL31 G],
              ![0, cholL22 G, cholL32 G],
              ![0, 0, cholL33 G]]

/-- `ShearMatrix(S)`: unit upper-triangular with the three shear
coefficients, in the row-major order the boolean mask extracts them. -/
def shearMatrix (S : ℝ × ℝ × ℝ) : Matrix (Fin 3) (Fin 3) ℝ :=
  Matrix.of ![![1, S.1, S.2.1], ![0, 1, S.2.2], ![0, 0, 1]]

/-- Embedding of `decompose_transform` (affine.py lines 89-103): translation,
rotation `R = RZS · ZS⁻¹`, zooms `Z = diag(ZS)` and shears
`S = (ZS01/Z0, ZS02/Z0, ZS12/Z1)`; when `det R < 0` the first zoom and the
first row of `ZS` are negated and `R` recomputed (the shears were extracted
before the flip, as in the source). -/
def decompose_transform (A : Matrix (Fin 4) (Fin 4) ℝ) :
    (Fin 3 → ℝ) × Matrix (Fin 3) (Fin 3) ℝ × (Fin 3 → ℝ) × (ℝ × ℝ × ℝ) :=
  let ZS := cholZS (gram A)
  let Z : Fin 3 → ℝ := fun i => ZS i i
  let S : ℝ × ℝ × ℝ := (ZS 0 1 / Z 0, ZS 0 2 / Z 0, ZS 1 2 / Z 1)
  let R := RZS A * ZS⁻¹
  if R.det < 0 then
    (trans_part A,
     RZS A * (Matrix.updateRow ZS 0 (fun j => -ZS 0 j))⁻¹,
     Function.update Z 0 (-Z 0),
     S)
  else (trans_part A, R, Z, S)


end


/-! ### Theorems -/

/-! ### Theorems for the kernel selector and the blend operations -/

/-- C10: for every element type, `_get_kernel` with method `'nearest'` and
`preserve_dtype = true` selects the unsigned-short nearest-neighbour kernel,
regardless of the element type — in particular for `float32` input. -/
theorem get_kernel_nearest_preserve_uint16 (dt : Dtype) :
    _get_kernel dt "nearest" true =
      Except.ok (some ("nearest", "affineTransformNearest<unsigned short>")) := by
  cases dt <;> rfl

/-- Counterexample to C5 as stated: with method `'nearest'`, an element
type outside {uint16, float32} and `preserve_dtype = false`, the Python
code falls through all branches and silently returns `None` instead of
raising an error. -/
theorem get_kernel_nearest_silent_none :
    (Dtype.other ≠ Dtype.uint16 ∧ Dtype.other ≠ Dtype.float32) ∧
      _get_kernel Dtype.other "nearest" false = Except.ok none := by
  exact ⟨⟨by decide, by decide⟩, rfl⟩

/-- C5 (amended): unknown methods always raise
`ValueError('invalid interpolation method')`, and for methods `'linear'`
and `'cubspl'` an element type outside {uint16, float32} raises
`ValueError('invalid datatype')`; but for method `'nearest'` an
unsupported element type is not rejected: the uint16 kernel is returned
when `preserve_dtype` is set and `None` is silently returned otherwise. -/
theorem get_kernel_error_amended (dt : Dtype) (m : String) (pd : Bool) :
    (m ≠ "nearest" → m ≠ "linear" → m ≠ "cubspl" →
      _get_kernel dt m pd = Except.error "invalid interpolation method") ∧
    ((m = "linear" ∨ m = "cubspl") → dt = Dtype.other →
      _get_kernel dt m pd = Except.error "invalid datatype") ∧
    (dt = Dtype.other →
      _get_kernel dt "nearest" pd =
        if pd then Except.ok (some ("nearest", "affineTransformNearest<unsigned short>"))
        else Except.ok none) := by
  refine ⟨?_, ?_, ?_⟩
  · intro h1 h2 h3
    simp [_get_kernel, h1, h2, h3]
  · rintro (rfl | rfl) rfl <;> cases pd <;> rfl
  · rintro rfl
    cases pd <;> rfl

/-- Witness for C5 (amended), at a concrete unknown method. -/
theorem get_kernel_error_amended_witness :
    _get_kernel Dtype.uint16 "bogus" true = Except.error "invalid interpolation method" :=
  (get_kernel_error_amended Dtype.uint16 "bogus" true).1
    (by decide) (by decide) (by decide)

/-- The padding loop returns the least multiplier `n ≥ n0` with
`chunk_dim * n ≥ dim`, given enough fuel. -/
theorem pad_loop_spec (dim cd : ℕ) :
    ∀ fuel n0, dim ≤ cd * (n0 + fuel) →
      ∃ n, pad_loop dim cd fuel n0 = some n ∧ n0 ≤ n ∧ dim ≤ cd * n ∧
        (n = n0 ∨ cd * (n - 1) < dim) := by
  intro fuel
  induction fuel with
  | zero =>
    intro n0 h
    have h' : dim ≤ cd * n0 := by simpa using h
    exact ⟨n0, by simp [pad_loop, Nat.not_lt.mpr h'], le_refl _, h', Or.inl rfl⟩
  | succ f ih =>
    intro n0 h
    by_cases hc : cd * n0 < dim
    · have h' : dim ≤ cd * (n0 + 1 + f) := by
        have harg : n0 + 1 + f = n0 + (f + 1) := by omega
        rw [harg]; exact h
      obtain ⟨n, hn, hle, hdim, hd⟩ := ih (n0 + 1) h'
      refine ⟨n, by simp [pad_loop, hc, hn], by omega, hdim, Or.inr ?_⟩
      rcases hd with rfl | hlt
      · simpa using hc
      · exact hlt
    · have h' : dim ≤ cd * n0 := Nat.not_lt.mp hc
      exact ⟨n0, by simp [pad_loop, hc], le_refl _, h', Or.inl rfl⟩

/-- Characterisation of `_pad_amount` for a positive chunk dimension that
fits in the shape: it succeeds, and the implied multiplier `N` is the
least one with `cd * N ≥ s`. -/
theorem pad_spec (s cd : ℕ) (h1 : 1 ≤ cd) (hle : cd ≤ s) :
    ∃ N, _pad_amount s cd = some (cd * N - s) ∧ 1 ≤ N ∧ s ≤ cd * N ∧ cd * (N - 1) < s := by
  have hfuel : s ≤ cd * (1 + s) := by
    calc s ≤ 1 + s := by omega
    _ = 1 * (1 + s) := (one_mul _).symm
    _ ≤ cd * (1 + s) := Nat.mul_le_mul_right _ h1
  obtain ⟨n, hn, hge, hdim, hd⟩ := pad_loop_spec s cd s 1 hfuel
  refine ⟨n, by simp [_pad_amount, hle, hn], hge, hdim, ?_⟩
  rcases hd with rfl | h
  · simpa using (by omega : 0 < s)
  · exact h

/-- If a coordinate lies in an axis window then the window index is
forced to be the coordinate's chunk quotient. -/
theorem ax_in_imp (s cd m v : ℕ) (h : inAx (axWindow s cd m) v) : v / cd = m := by
  obtain ⟨hl, hr⟩ := h
  have hl' : m * cd ≤ v := hl
  have hub : v < m * cd + cd := by
    revert hr
    unfold axWindow
    dsimp only
    split_ifs with hc
    · intro hr; omega
    · intro hr; exact hr
  exact Nat.div_eq_of_lt_le hl' (by rw [Nat.succ_mul]; exact hub)

/-- Conversely, an in-shape coordinate lies in the axis window indexed by
its chunk quotient. -/
theorem ax_in_of (s cd v : ℕ) (h1 : 0 < cd) (hv : v < s) :
    inAx (axWindow s cd (v / cd)) v := by
  refine ⟨Nat.div_mul_le_self v cd, ?_⟩
  unfold axWindow
  dsimp only
  have h2 : v < v / cd * cd + cd := by
    have hmod := Nat.mod_lt v h1
    have hdm := Nat.div_add_mod v cd
    calc v = cd * (v / cd) + v % cd := hdm.symm
    _ < cd * (v / cd) + cd := Nat.add_lt_add_left hmod _
    _ = v / cd * cd + cd := by rw [Nat.mul_comm]
  split_ifs with hc
  · exact hv
  · exact h2

/-- An axis window never reaches past the true shape. -/
theorem axWindow_hi_le (s cd m : ℕ) : (axWindow s cd m).2 ≤ s := by
  unfold axWindow; dsimp only; split_ifs with hc
  · exact le_refl s
  · omega

/-- An axis window is never wider than the chunk dimension. -/
theorem axWindow_extent_le (s cd m : ℕ) :
    (axWindow s cd m).2 - (axWindow s cd m).1 ≤ cd := by
  unfold axWindow; dsimp only; split_ifs with hc <;> omega

/-- An axis window that is narrower than the chunk dimension was clamped,
so its upper bound is the trailing edge of the shape. -/
theorem axWindow_narrow_trailing (s cd m : ℕ)
    (h : (axWindow s cd m).2 - (axWindow s cd m).1 < cd) :
    (axWindow s cd m).2 = s := by
  revert h
  unfold axWindow; dsimp only; split_ifs with hc
  · intro _; rfl
  · intro h; omega

/-- Counting occurrences of a single value in a duplicate-free list that
contains it gives exactly one. -/
theorem countP_eq_one_of_nodup_mem {α : Type} [DecidableEq α] {l : List α} {a : α}
    (hn : l.Nodup) (ha : a ∈ l) :
    l.countP (fun x => decide (x = a)) = 1 := by
  induction l with
  | nil => simp at ha
  | cons b t ih =>
    rw [List.countP_cons]
    rcases List.mem_cons.mp ha with rfl | hat
    · have hbt : a ∉ t := (List.nodup_cons.mp hn).1
      have hz : t.countP (fun x => decide (x = a)) = 0 := by
        rw [List.countP_eq_zero]
        intro x hx
        simp only [decide_eq_true_eq]
        rintro rfl
        exact hbt hx
      simp [hz]
    · have hba : b ≠ a := by
        rintro rfl
        exact (List.nodup_cons.mp hn).1 hat
      have ht := ih (List.nodup_cons.mp hn).2 hat
      simp [ht, hba]

/-- Core correctness of the chunk planner for an explicit 3-tuple of
positive chunk dimensions, each fitting within the shape. -/
theorem chunks_core (z r c c0 c1 c2 : ℕ)
    (h0 : 1 ≤ c0) (h0s : c0 ≤ z) (h1 : 1 ≤ c1) (h1s : c1 ≤ r)
    (h2 : 1 ≤ c2) (h2s : c2 ≤ c) :
    ∃ ws, _calculate_array_chunks z r c (Sum.inr (c0, c1, c2)) = some ws ∧
      (∀ v : ℕ × ℕ × ℕ, v.1 < z → v.2.1 < r → v.2.2 < c →
        ws.countP (fun w => decide (inWin w v)) = 1) ∧
      (∀ w ∈ ws,
        (w.1.2 ≤ z ∧ w.2.1.2 ≤ r ∧ w.2.2.2 ≤ c) ∧
        (w.1.2 - w.1.1 ≤ c0 ∧ w.2.1.2 - w.2.1.1 ≤ c1 ∧ w.2.2.2 - w.2.2.1 ≤ c2) ∧
        ((w.1.2 - w.1.1 < c0 → w.1.2 = z) ∧
         (w.2.1.2 - w.2.1.1 < c1 → w.2.1.2 = r) ∧
         (w.2.2.2 - w.2.2.1 < c2 → w.2.2.2 = c))) ∧
      ws.Pairwise (fun w w2 => ∀ v, ¬(inWin w v ∧ inWin w2 v)) := by
  obtain ⟨N0, hp0, hg0, hu0, hl0⟩ := pad_spec z c0 h0 h0s
  obtain ⟨N1, hp1, hg1, hu1, hl1⟩ := pad_spec r c1 h1 h1s
  obtain ⟨N2, hp2, hg2, hu2, hl2⟩ := pad_spec c c2 h2 h2s
  have hc0 : 0 < c0 := h0
  have hc1 : 0 < c1 := h1
  have hc2 : 0 < c2 := h2
  have hne : ¬(c0 = 0 ∨ c1 = 0 ∨ c2 = 0) := by omega
  have hdiv0 : (z + (c0 * N0 - z)) / c0 = N0 := by
    rw [Nat.add_sub_cancel' hu0, Nat.mul_div_cancel_left _ hc0]
  have hdiv1 : (r + (c1 * N1 - r)) / c1 = N1 := by
    rw [Nat.add_sub_cancel' hu1, Nat.mul_div_cancel_left _ hc1]
  have hdiv2 : (c + (c2 * N2 - c)) / c2 = N2 := by
    rw [Nat.add_sub_cancel' hu2, Nat.mul_div_cancel_left _ hc2]
  have heq : _calculate_array_chunks z r c (Sum.inr (c0, c1, c2)) =
      some (((List.range N0) ×ˢ ((List.range N1) ×ˢ (List.range N2))).map
        (fun m => (axWindow z c0 m.1, axWindow r c1 m.2.1, axWindow c c2 m.2.2))) := by
    simp only [_calculate_array_chunks, resolveChunk, hp0, hp1, hp2]
    rw [if_neg hne]
    simp only [hdiv0, hdiv1, hdiv2]
  have hnodup : (((List.range N0) ×ˢ ((List.range N1) ×ˢ (List.range N2)))).Nodup :=
    (List.nodup_range _).product ((List.nodup_range _).product (List.nodup_range _))
  refine ⟨_, heq, ?_, ?_, ?_⟩
  · -- exactly-once coverage
    intro v hv0 hv1 hv2
    rw [List.countP_map]
    simp only [Function.comp_def]
    have hiff : ∀ m ∈ (List.range N0) ×ˢ ((List.range N1) ×ˢ (List.range N2)),
        decide (inWin (axWindow z c0 m.1, axWindow r c1 m.2.1, axWindow c c2 m.2.2) v) ↔
          decide (m = (v.1 / c0, v.2.1 / c1, v.2.2 / c2)) := by
      intro m _
      simp only [decide_eq_true_eq]
      constructor
      · rintro ⟨ha, hb, hc'⟩
        obtain ⟨m0, m1, m2⟩ := m
        have e0 := ax_in_imp z c0 m0 v.1 ha
        have e1 := ax_in_imp r c1 m1 v.2.1 hb
        have e2 := ax_in_imp c c2 m2 v.2.2 hc'
        simp [← e0, ← e1, ← e2]
      · rintro rfl
        exact ⟨ax_in_of z c0 v.1 hc0 hv0, ax_in_of r c1 v.2.1 hc1 hv1,
          ax_in_of c c2 v.2.2 hc2 hv2⟩
    rw [List.countP_congr hiff]
    have hmem : (v.1 / c0, v.2.1 / c1, v.2.2 / c2) ∈
        (List.range N0) ×ˢ ((List.range N1) ×ˢ (List.range N2)) := by
      have m0 : v.1 / c0 < N0 := by
        have hvlt : v.1 < N0 * c0 := by
          calc v.1 < z := hv0
          _ ≤ c0 * N0 := hu0
          _ = N0 * c0 := Nat.mul_comm _ _
        exact (Nat.div_lt_iff_lt_mul hc0).mpr hvlt
      have m1 : v.2.1 / c1 < N1 := by
        have hvlt : v.2.1 < N1 * c1 := by
          calc v.2.1 < r := hv1
          _ ≤ c1 * N1 := hu1
          _ = N1 * c1 := Nat.mul_comm _ _
        exact (Nat.div_lt_iff_lt_mul hc1).mpr hvlt
      have m2 : v.2.2 / c2 < N2 := by
        have hvlt : v.2.2 < N2 * c2 := by
          calc v.2.2 < c := hv2
          _ ≤ c2 * N2 := hu2
          _ = N2 * c2 := Nat.mul_comm _ _
        exact (Nat.div_lt_iff_lt_mul hc2).mpr hvlt
      simp [List.mem_product, List.mem_range, m0, m1, m2]
    exact countP_eq_one_of_nodup_mem hnodup hmem
  · -- per-window bounds, extents, trailing-edge clamping
    intro w hw
    rw [List.mem_map] at hw
    obtain ⟨m, _, rfl⟩ := hw
    exact ⟨⟨axWindow_hi_le _ _ _, axWindow_hi_le _ _ _, axWindow_hi_le _ _ _⟩,
      ⟨axWindow_extent_le _ _ _, axWindow_extent_le _ _ _, axWindow_extent_le _ _ _⟩,
      axWindow_narrow_trailing _ _ _, axWindow_narrow_trailing _ _ _,
      axWindow_narrow_trailing _ _ _⟩
  · -- pairwise disjointness
    refine List.Pairwise.map _ ?_ hnodup
    rintro a b hab v ⟨⟨ha0, ha1, ha2⟩, hb0, hb1, hb2⟩
    apply hab
    obtain ⟨a0, a1, a2⟩ := a
    obtain ⟨b0, b1, b2⟩ := b
    have e0 : a0 = b0 := by
      rw [← ax_in_imp z c0 a0 v.1 ha0, ← ax_in_imp z c0 b0 v.1 hb0]
    have e1 : a1 = b1 := by
      rw [← ax_in_imp r c1 a1 v.2.1 ha1, ← ax_in_imp r c1 b1 v.2.1 hb1]
    have e2 : a2 = b2 := by
      rw [← ax_in_imp c c2 a2 v.2.2 ha2, ← ax_in_imp c c2 b2 v.2.2 hb2]
    simp [e0, e1, e2]

/-- With a chunk dimension of zero and a positive shape dimension the
padding search loop never terminates, whatever the fuel: the Python
`_pad_amount` hangs forever. -/
theorem pad_loop_zero_chunk_diverges : ∀ fuel n, pad_loop 1 0 fuel n = none := by
  intro fuel
  induction fuel with
  | zero => intro n; simp [pad_loop]
  | succ f ih => intro n; simp [pad_loop, ih]

/-- Counterexample to C2 as stated: the chunk size (0,1,1) is
component-wise no larger than the shape (1,1,1), yet the planner never
produces a window list (in Python the `while 0 * n < 1` loop in
`_pad_amount` spins forever), so no collection of returned windows covers
the shape. -/
theorem calculate_array_chunks_zero_chunk :
    ((resolveChunk (Sum.inr (0, 1, 1))).1 ≤ 1 ∧
      (resolveChunk (Sum.inr (0, 1, 1))).2.1 ≤ 1 ∧
      (resolveChunk (Sum.inr (0, 1, 1))).2.2 ≤ 1) ∧
    _calculate_array_chunks 1 1 1 (Sum.inr (0, 1, 1)) = none := by
  exact ⟨by decide, rfl⟩

/-- C2 (amended): for every shape and every chunk size — an integer or a
3-tuple — whose per-axis dimensions are at least 1 and at most the
corresponding shape dimension, the planner succeeds and the returned
windows are pairwise disjoint half-open ranges covering every voxel of
the shape exactly once; no upper bound exceeds the shape, every extent is
at most the chunk size, and a window narrower than the chunk size only
occurs clamped against the trailing edge of its axis. -/
theorem calculate_array_chunks_cover (z r c : ℕ) (cs : ℕ ⊕ (ℕ × ℕ × ℕ))
    (h0 : 1 ≤ (resolveChunk cs).1) (h0s : (resolveChunk cs).1 ≤ z)
    (h1 : 1 ≤ (resolveChunk cs).2.1) (h1s : (resolveChunk cs).2.1 ≤ r)
    (h2 : 1 ≤ (resolveChunk cs).2.2) (h2s : (resolveChunk cs).2.2 ≤ c) :
    ∃ ws, _calculate_array_chunks z r c cs = some ws ∧
      (∀ v : ℕ × ℕ × ℕ, v.1 < z → v.2.1 < r → v.2.2 < c →
        ws.countP (fun w => decide (inWin w v)) = 1) ∧
      (∀ w ∈ ws,
        (w.1.2 ≤ z ∧ w.2.1.2 ≤ r ∧ w.2.2.2 ≤ c) ∧
        (w.1.2 - w.1.1 ≤ (resolveChunk cs).1 ∧
         w.2.1.2 - w.2.1.1 ≤ (resolveChunk cs).2.1 ∧
         w.2.2.2 - w.2.2.1 ≤ (resolveChunk cs).2.2) ∧
        ((w.1.2 - w.1.1 < (resolveChunk cs).1 → w.1.2 = z) ∧
         (w.2.1.2 - w.2.1.1 < (resolveChunk cs).2.1 → w.2.1.2 = r) ∧
         (w.2.2.2 - w.2.2.1 < (resolveChunk cs).2.2 → w.2.2.2 = c))) ∧
      ws.Pairwise (fun w w2 => ∀ v, ¬(inWin w v ∧ inWin w2 v)) := by
  rcases cs with n | t
  · simp only [resolveChunk] at h0 h0s h1 h1s h2 h2s ⊢
    have hsame : _calculate_array_chunks z r c (Sum.inl n) =
        _calculate_array_chunks z r c (Sum.inr (n, n, n)) := rfl
    rw [hsame]
    exact chunks_core z r c n n n h0 h0s h1 h1s h2 h2s
  · obtain ⟨c0, c1, c2⟩ := t
    simp only [resolveChunk] at h0 h0s h1 h1s h2 h2s ⊢
    exact chunks_core z r c c0 c1 c2 h0 h0s h1 h1s h2 h2s

/-- Witness for C2 (amended): the spec's own scenario, shape (10,10,10)
with integer chunk size 4; the voxel (9,9,9) lies in exactly one window. -/
theorem calculate_array_chunks_cover_witness :
    ∃ ws, _calculate_array_chunks 10 10 10 (Sum.inl 4) = some ws ∧
      ws.countP (fun w => decide (inWin w (9, 9, 9))) = 1 := by
  obtain ⟨ws, hws, hcov, -, -⟩ :=
    calculate_array_chunks_cover 10 10 10 (Sum.inl 4)
      (by decide) (by decide) (by decide) (by decide) (by decide) (by decide)
  exact ⟨ws, hws, hcov (9, 9, 9) (by decide) (by decide) (by decide)⟩

/-- Counterexample to C6 as stated: `maxblend_into_existing` performs no
shape comparison at all — with operand shapes (1,1,1) and (2,2,2) it
still succeeds and launches the max-blend kernel, passing both shapes
through to the device. -/
theorem maxblend_mismatched_ok :
    volA.shape ≠ volB.shape ∧
      maxblend_into_existing volA volB "linear" ((1, 1, 1), (8, 8, 8)) =
        Except.ok { kernel := ("linear", "affineTransformMaxBlend"),
                    grid := (1, 1, 1), block := (8, 8, 8),
                    shapeArgs := ((1, 1, 1), (2, 2, 2)) } := by
  exact ⟨by decide, rfl⟩

/-- C6 (amended): neither blend operation validates operand shapes.
`maxblend_into_existing` always launches the max-blend kernel (linear
module for `'linear'`, cubic-spline module for any other method string),
and `meanblend_into_existing` launches the mean-blend kernel for
`'linear'`/`'cubspl'` and raises `ValueError` only for other methods;
in every successful case both operand shapes are merely forwarded to the
kernel. -/
theorem blend_no_shape_check_amended (E N S C NV : Volume) (m : String)
    (lp : (ℕ × ℕ × ℕ) × (ℕ × ℕ × ℕ)) :
    (maxblend_into_existing E N m lp =
      Except.ok { kernel := if m = "linear" then ("linear", "affineTransformMaxBlend")
                            else ("cubspl", "affineTransformMaxBlend"),
                  grid := lp.1, block := lp.2, shapeArgs := (E.shape, N.shape) }) ∧
    (m = "linear" →
      meanblend_into_existing S C NV m lp =
        Except.ok { kernel := ("linear", "affineTransformMeanBlend"),
                    grid := lp.1, block := lp.2, shapeArgs := (S.shape, NV.shape) }) ∧
    (m = "cubspl" →
      meanblend_into_existing S C NV m lp =
        Except.ok { kernel := ("cubspl", "affineTransformMeanBlend"),
                    grid := lp.1, block := lp.2, shapeArgs := (S.shape, NV.shape) }) ∧
    (m ≠ "linear" → m ≠ "cubspl" →
      meanblend_into_existing S C NV m lp = Except.error "invalid interpolation method") := by
  refine ⟨rfl, ?_, ?_, ?_⟩
  · rintro rfl; rfl
  · rintro rfl; rfl
  · intro h1 h2
    simp [meanblend_into_existing, h1, h2]

/-- Witness for C6 (amended): concrete mismatched shapes still blend, and
a concrete invalid method errors. -/
theorem blend_no_shape_check_amended_witness :
    (maxblend_into_existing volA volB "cubspl" ((2, 2, 2), (4, 4, 4)) =
      Except.ok { kernel := ("cubspl", "affineTransformMaxBlend"),
                  grid := (2, 2, 2), block := (4, 4, 4),
                  shapeArgs := ((1, 1, 1), (2, 2, 2)) }) ∧
    meanblend_into_existing volA volA volB "nearest" ((1, 1, 1), (8, 8, 8)) =
      Except.error "invalid interpolation method" := by
  refine ⟨?_, ?_⟩
  · have h := (blend_no_shape_check_amended volA volB volA volA volB "cubspl"
      ((2, 2, 2), (4, 4, 4))).1
    simpa using h
  · exact (blend_no_shape_check_amended volA volB volA volA volB "nearest"
      ((1, 1, 1), (8, 8, 8))).2.2.2 (by decide) (by decide)

/-- `max` against a shifted copy picks out the positive part of the shift. -/
theorem max_shift (t a : ℚ) : max t (t + a) = t + max 0 a := by
  have h := max_add_add_left t 0 a
  simpa using h

/-- `min` against a shifted copy picks out the negative part of the shift. -/
theorem min_shift (t a : ℚ) : min t (t + a) = t + min 0 a := by
  have h := min_add_add_left t 0 a
  simpa using h

/-- The maximum over the eight sums `t + {0,p} + {0,q} + {0,r}` in corner
order is the base value plus the positive parts. -/
theorem max8_shift (t p q r : ℚ) :
    max8 t (t + r) (t + q) (t + q + r) (t + p) (t + p + r) (t + p + q) (t + p + q + r) =
      t + max 0 p + max 0 q + max 0 r := by
  unfold max8
  rw [max_shift t r, max_shift (t + q) r, max_shift (t + p) r, max_shift (t + p + q) r]
  rw [max_add_add_right t (t + q) (max 0 r), max_add_add_right (t + p) (t + p + q) (max 0 r)]
  rw [max_add_add_right (max t (t + q)) (max (t + p) (t + p + q)) (max 0 r)]
  rw [max_shift t q, max_shift (t + p) q]
  rw [max_add_add_right t (t + p) (max 0 q)]
  rw [max_shift t p]

/-- The minimum over the eight sums in corner order is the base value plus
the negative parts. -/
theorem min8_shift (t p q r : ℚ) :
    min8 t (t + r) (t + q) (t + q + r) (t + p) (t + p + r) (t + p + q) (t + p + q + r) =
      t + min 0 p + min 0 q + min 0 r := by
  unfold min8
  rw [min_shift t r, min_shift (t + q) r, min_shift (t + p) r, min_shift (t + p + q) r]
  rw [min_add_add_right t (t + q) (min 0 r), min_add_add_right (t + p) (t + p + q) (min 0 r)]
  rw [min_add_add_right (min t (t + q)) (min (t + p) (t + p + q)) (min 0 r)]
  rw [min_shift t q, min_shift (t + p) q]
  rw [min_add_add_right t (t + p) (min 0 q)]
  rw [min_shift t p]

/-- Positive part minus negative part is the absolute value. -/
theorem max_sub_min_eq_abs (a : ℚ) : max 0 a - min 0 a = |a| := by
  rcases le_total 0 a with h | h
  · rw [max_eq_right h, min_eq_left h, abs_of_nonneg h]
    ring
  · rw [max_eq_left h, min_eq_right h, abs_of_nonpos h]
    ring

/-- Closed form for the per-axis peak-to-peak extent: it is the weighted
sum of absolute row entries, independently of the homogeneous coordinate
— which is why stacking zeros (the code) and applying the translation
(the spec) give the same answer. -/
theorem ptpAxis_eq (T : Matrix (Fin 4) (Fin 4) ℚ) (i : Fin 4) (hom x y z : ℚ) :
    ptpAxis T i hom x y z = |T i 0 * x| + |T i 1 * y| + |T i 2 * z| := by
  have e0 : cval T i hom (0, 0, 0) = T i 3 * hom := by unfold cval; ring
  have e1 : cval T i hom (0, 0, z) = T i 3 * hom + T i 2 * z := by unfold cval; ring
  have e2 : cval T i hom (0, y, 0) = T i 3 * hom + T i 1 * y := by unfold cval; ring
  have e3 : cval T i hom (0, y, z) = T i 3 * hom + T i 1 * y + T i 2 * z := by
    unfold cval; ring
  have e4 : cval T i hom (x, 0, 0) = T i 3 * hom + T i 0 * x := by unfold cval; ring
  have e5 : cval T i hom (x, 0, z) = T i 3 * hom + T i 0 * x + T i 2 * z := by
    unfold cval; ring
  have e6 : cval T i hom (x, y, 0) = T i 3 * hom + T i 0 * x + T i 1 * y := by
    unfold cval; ring
  have e7 : cval T i hom (x, y, z) = T i 3 * hom + T i 0 * x + T i 1 * y + T i 2 * z := by
    unfold cval; ring
  unfold ptpAxis
  rw [e0, e1, e2, e3, e4, e5, e6, e7, max8_shift, min8_shift]
  have ha := max_sub_min_eq_abs (T i 0 * x)
  have hb := max_sub_min_eq_abs (T i 1 * y)
  have hc := max_sub_min_eq_abs (T i 2 * z)
  linarith

/-- C3: for every affine matrix and every input shape, the code's output
shape — computed with a stacked zero homogeneous row — coincides with the
spec's description (transforming the eight corners through the full
linear-plus-translation action, taking component-wise ranges, and
rounding up), because the peak-to-peak range is translation invariant. -/
theorem output_shape_for_transform_matches_spec (T : Matrix (Fin 4) (Fin 4) ℚ)
    (s : ℤ × ℤ × ℤ) :
    output_shape_for_transform T s = output_shape_spec T s := by
  unfold output_shape_for_transform output_shape_spec
  simp only [ptpAxis_eq]

/-- C9: the output shape under the identity transform is exactly the
input shape. -/
theorem output_shape_identity (z y x : ℕ) :
    output_shape_for_transform 1 ((z : ℤ), (y : ℤ), (x : ℤ)) =
      ((z : ℤ), (y : ℤ), (x : ℤ)) := by
  unfold output_shape_for_transform
  simp only [ptpAxis_eq, Matrix.one_apply]
  norm_num [Fin.ext_iff]

/-- The key inequality for the bounding-box round trip: with `n` a row of
the inverse linear block and `d` the corresponding row of `N · M = 1`,
the weighted sums of absolute entries of the forward pass, rounded up,
dominate the original extents. -/
theorem ceil_chain (n0 n1 n2 t00 t01 t02 t10 t11 t12 t20 t21 t22 X Y Z d0 d1 d2 : ℚ)
    (hX : 0 ≤ X) (hY : 0 ≤ Y) (hZ : 0 ≤ Z)
    (hd0 : n0 * t00 + n1 * t10 + n2 * t20 = d0)
    (hd1 : n0 * t01 + n1 * t11 + n2 * t21 = d1)
    (hd2 : n0 * t02 + n1 * t12 + n2 * t22 = d2) :
    |d0| * X + |d1| * Y + |d2| * Z ≤
      |n0 * ((⌈|t00 * X| + |t01 * Y| + |t02 * Z|⌉ : ℤ) : ℚ)| +
      |n1 * ((⌈|t10 * X| + |t11 * Y| + |t12 * Z|⌉ : ℤ) : ℚ)| +
      |n2 * ((⌈|t20 * X| + |t21 * Y| + |t22 * Z|⌉ : ℤ) : ℚ)| := by
  have hu0 : (0 : ℚ) ≤ |t00 * X| + |t01 * Y| + |t02 * Z| := by positivity
  have hu1 : (0 : ℚ) ≤ |t10 * X| + |t11 * Y| + |t12 * Z| := by positivity
  have hu2 : (0 : ℚ) ≤ |t20 * X| + |t21 * Y| + |t22 * Z| := by positivity
  have hc0 : |t00 * X| + |t01 * Y| + |t02 * Z| ≤
      ((⌈|t00 * X| + |t01 * Y| + |t02 * Z|⌉ : ℤ) : ℚ) := Int.le_ceil _
  have hc1 : |t10 * X| + |t11 * Y| + |t12 * Z| ≤
      ((⌈|t10 * X| + |t11 * Y| + |t12 * Z|⌉ : ℤ) : ℚ) := Int.le_ceil _
  have hc2 : |t20 * X| + |t21 * Y| + |t22 * Z| ≤
      ((⌈|t20 * X| + |t21 * Y| + |t22 * Z|⌉ : ℤ) : ℚ) := Int.le_ceil _
  set c0 : ℚ := ((⌈|t00 * X| + |t01 * Y| + |t02 * Z|⌉ : ℤ) : ℚ) with hc0def
  set c1 : ℚ := ((⌈|t10 * X| + |t11 * Y| + |t12 * Z|⌉ : ℤ) : ℚ) with hc1def
  set c2 : ℚ := ((⌈|t20 * X| + |t21 * Y| + |t22 * Z|⌉ : ℤ) : ℚ) with hc2def
  have hcn0 : (0 : ℚ) ≤ c0 := le_trans hu0 hc0
  have hcn1 : (0 : ℚ) ≤ c1 := le_trans hu1 hc1
  have hcn2 : (0 : ℚ) ≤ c2 := le_trans hu2 hc2
  have habs2 : ∀ u v : ℚ, 0 ≤ v → |u * v| = |u| * v := by
    intro u v hv; rw [abs_mul, abs_of_nonneg hv]
  rw [habs2 n0 c0 hcn0, habs2 n1 c1 hcn1, habs2 n2 c2 hcn2]
  have b0 : |n0| * (|t00 * X| + |t01 * Y| + |t02 * Z|) ≤ |n0| * c0 :=
    mul_le_mul_of_nonneg_left hc0 (abs_nonneg _)
  have b1 : |n1| * (|t10 * X| + |t11 * Y| + |t12 * Z|) ≤ |n1| * c1 :=
    mul_le_mul_of_nonneg_left hc1 (abs_nonneg _)
  have b2 : |n2| * (|t20 * X| + |t21 * Y| + |t22 * Z|) ≤ |n2| * c2 :=
    mul_le_mul_of_nonneg_left hc2 (abs_nonneg _)
  have a0 : |d0| * X ≤ (|n0| * |t00| + |n1| * |t10| + |n2| * |t20|) * X := by
    refine mul_le_mul_of_nonneg_right ?_ hX
    rw [← hd0]
    calc |n0 * t00 + n1 * t10 + n2 * t20| ≤ |n0 * t00 + n1 * t10| + |n2 * t20| := abs_add _ _
    _ ≤ |n0 * t00| + |n1 * t10| + |n2 * t20| := by
        have := abs_add (n0 * t00) (n1 * t10)
        linarith
    _ = |n0| * |t00| + |n1| * |t10| + |n2| * |t20| := by rw [abs_mul, abs_mul, abs_mul]
  have a1 : |d1| * Y ≤ (|n0| * |t01| + |n1| * |t11| + |n2| * |t21|) * Y := by
    refine mul_le_mul_of_nonneg_right ?_ hY
    rw [← hd1]
    calc |n0 * t01 + n1 * t11 + n2 * t21| ≤ |n0 * t01 + n1 * t11| + |n2 * t21| := abs_add _ _
    _ ≤ |n0 * t01| + |n1 * t11| + |n2 * t21| := by
        have := abs_add (n0 * t01) (n1 * t11)
        linarith
    _ = |n0| * |t01| + |n1| * |t11| + |n2| * |t21| := by rw [abs_mul, abs_mul, abs_mul]
  have a2 : |d2| * Z ≤ (|n0| * |t02| + |n1| * |t12| + |n2| * |t22|) * Z := by
    refine mul_le_mul_of_nonneg_right ?_ hZ
    rw [← hd2]
    calc |n0 * t02 + n1 * t12 + n2 * t22| ≤ |n0 * t02 + n1 * t12| + |n2 * t22| := abs_add _ _
    _ ≤ |n0 * t02| + |n1 * t12| + |n2 * t22| := by
        have := abs_add (n0 * t02) (n1 * t12)
        linarith
    _ = |n0| * |t02| + |n1| * |t12| + |n2| * |t22| := by rw [abs_mul, abs_mul, abs_mul]
  have eb0 : |t00 * X| + |t01 * Y| + |t02 * Z| = |t00| * X + |t01| * Y + |t02| * Z := by
    rw [habs2 t00 X hX, habs2 t01 Y hY, habs2 t02 Z hZ]
  have eb1 : |t10 * X| + |t11 * Y| + |t12 * Z| = |t10| * X + |t11| * Y + |t12| * Z := by
    rw [habs2 t10 X hX, habs2 t11 Y hY, habs2 t12 Z hZ]
  have eb2 : |t20 * X| + |t21 * Y| + |t22 * Z| = |t20| * X + |t21| * Y + |t22| * Z := by
    rw [habs2 t20 X hX, habs2 t21 Y hY, habs2 t22 Z hZ]
  rw [eb0] at b0
  rw [eb1] at b1
  rw [eb2] at b2
  linarith

/-- C4: for every invertible affine matrix (last row (0,0,0,*), nonzero
determinant) and every input shape, feeding `output_shape_for_transform`
into `output_shape_for_inv_transform` yields a shape at least as large as
the original, component-wise. -/
theorem output_shape_roundtrip_ge (T : Matrix (Fin 4) (Fin 4) ℚ)
    (hr0 : T 3 0 = 0) (hr1 : T 3 1 = 0) (hr2 : T 3 2 = 0) (hdet : T.det ≠ 0)
    (z y x : ℕ) :
    (z : ℤ) ≤ (output_shape_for_inv_transform T
        (output_shape_for_transform T ((z : ℤ), (y : ℤ), (x : ℤ)))).1 ∧
    (y : ℤ) ≤ (output_shape_for_inv_transform T
        (output_shape_for_transform T ((z : ℤ), (y : ℤ), (x : ℤ)))).2.1 ∧
    (x : ℤ) ≤ (output_shape_for_inv_transform T
        (output_shape_for_transform T ((z : ℤ), (y : ℤ), (x : ℤ)))).2.2 := by
  have hNT : inv4 T * T = 1 := by
    unfold inv4
    rw [Matrix.smul_mul, Matrix.adjugate_mul, smul_smul, inv_mul_cancel₀ hdet, one_smul]
  have hdel : ∀ i k : Fin 4,
      inv4 T i 0 * T 0 k + inv4 T i 1 * T 1 k + inv4 T i 2 * T 2 k + inv4 T i 3 * T 3 k =
        (if i = k then (1 : ℚ) else 0) := by
    intro i k
    have h : (inv4 T * T) i k = (1 : Matrix (Fin 4) (Fin 4) ℚ) i k := by rw [hNT]
    rw [Matrix.mul_apply, Fin.sum_univ_four, Matrix.one_apply] at h
    exact h
  have hd3 : ∀ i k : Fin 4, T 3 k = 0 →
      inv4 T i 0 * T 0 k + inv4 T i 1 * T 1 k + inv4 T i 2 * T 2 k =
        (if i = k then (1 : ℚ) else 0) := by
    intro i k hr
    have h := hdel i k
    rw [hr, mul_zero, add_zero] at h
    exact h
  simp only [output_shape_for_inv_transform, output_shape_for_transform, ptpAxis_eq]
  refine ⟨?_, ?_, ?_⟩
  · have hd0 := hd3 2 0 hr0
    have hd1 := hd3 2 1 hr1
    have hd2 := hd3 2 2 hr2
    rw [if_neg (by decide)] at hd0
    rw [if_neg (by decide)] at hd1
    rw [if_pos rfl] at hd2
    have chain := ceil_chain (inv4 T 2 0) (inv4 T 2 1) (inv4 T 2 2)
      (T 0 0) (T 0 1) (T 0 2) (T 1 0) (T 1 1) (T 1 2) (T 2 0) (T 2 1) (T 2 2)
      (((x : ℤ) : ℚ)) (((y : ℤ) : ℚ)) (((z : ℤ) : ℚ)) 0 0 1
      (by positivity) (by positivity) (by positivity) hd0 hd1 hd2
    simp only [abs_zero, abs_one, zero_mul, one_mul, zero_add] at chain
    calc (z : ℤ) = ⌈((z : ℤ) : ℚ)⌉ := (Int.ceil_intCast _).symm
    _ ≤ _ := Int.ceil_mono chain
  · have hd0 := hd3 1 0 hr0
    have hd1 := hd3 1 1 hr1
    have hd2 := hd3 1 2 hr2
    rw [if_neg (by decide)] at hd0
    rw [if_pos rfl] at hd1
    rw [if_neg (by decide)] at hd2
    have chain := ceil_chain (inv4 T 1 0) (inv4 T 1 1) (inv4 T 1 2)
      (T 0 0) (T 0 1) (T 0 2) (T 1 0) (T 1 1) (T 1 2) (T 2 0) (T 2 1) (T 2 2)
      (((x : ℤ) : ℚ)) (((y : ℤ) : ℚ)) (((z : ℤ) : ℚ)) 0 1 0
      (by positivity) (by positivity) (by positivity) hd0 hd1 hd2
    simp only [abs_zero, abs_one, zero_mul, one_mul, zero_add, add_zero] at chain
    calc (y : ℤ) = ⌈((y : ℤ) : ℚ)⌉ := (Int.ceil_intCast _).symm
    _ ≤ _ := Int.ceil_mono chain
  · have hd0 := hd3 0 0 hr0
    have hd1 := hd3 0 1 hr1
    have hd2 := hd3 0 2 hr2
    rw [if_pos rfl] at hd0
    rw [if_neg (by decide)] at hd1
    rw [if_neg (by decide)] at hd2
    have chain := ceil_chain (inv4 T 0 0) (inv4 T 0 1) (inv4 T 0 2)
      (T 0 0) (T 0 1) (T 0 2) (T 1 0) (T 1 1) (T 1 2) (T 2 0) (T 2 1) (T 2 2)
      (((x : ℤ) : ℚ)) (((y : ℤ) : ℚ)) (((z : ℤ) : ℚ)) 1 0 0
      (by positivity) (by positivity) (by positivity) hd0 hd1 hd2
    simp only [abs_zero, abs_one, zero_mul, one_mul, zero_add, add_zero] at chain
    calc (x : ℤ) = ⌈((x : ℤ) : ℚ)⌉ := (Int.ceil_intCast _).symm
    _ ≤ _ := Int.ceil_mono chain

/-- Witness for C4 at the identity matrix and shape (3,4,5). -/
theorem output_shape_roundtrip_ge_witness :
    ((1 : Matrix (Fin 4) (Fin 4) ℚ) 3 0 = 0 ∧ (1 : Matrix (Fin 4) (Fin 4) ℚ) 3 1 = 0 ∧
      (1 : Matrix (Fin 4) (Fin 4) ℚ) 3 2 = 0 ∧ (1 : Matrix (Fin 4) (Fin 4) ℚ).det ≠ 0) ∧
    (((3 : ℕ) : ℤ) ≤ (output_shape_for_inv_transform 1
        (output_shape_for_transform 1 (((3 : ℕ) : ℤ), ((4 : ℕ) : ℤ), ((5 : ℕ) : ℤ)))).1 ∧
      ((4 : ℕ) : ℤ) ≤ (output_shape_for_inv_transform 1
        (output_shape_for_transform 1 (((3 : ℕ) : ℤ), ((4 : ℕ) : ℤ), ((5 : ℕ) : ℤ)))).2.1 ∧
      ((5 : ℕ) : ℤ) ≤ (output_shape_for_inv_transform 1
        (output_shape_for_transform 1 (((3 : ℕ) : ℤ), ((4 : ℕ) : ℤ), ((5 : ℕ) : ℤ)))).2.2) := by
  have h0 : (1 : Matrix (Fin 4) (Fin 4) ℚ) 3 0 = 0 := by simp [Matrix.one_apply]
  have h1 : (1 : Matrix (Fin 4) (Fin 4) ℚ) 3 1 = 0 := by simp [Matrix.one_apply]
  have h2 : (1 : Matrix (Fin 4) (Fin 4) ℚ) 3 2 = 0 := by simp [Matrix.one_apply]
  have hd : (1 : Matrix (Fin 4) (Fin 4) ℚ).det ≠ 0 := by simp
  exact ⟨⟨h0, h1, h2, hd⟩, output_shape_roundtrip_ge 1 h0 h1 h2 hd 3 4 5⟩

/-- C7: whenever `transform` accepts an input, the buffer it allocates
has exactly the requested output shape — computed through
`output_shape_for_transform` from the input's shape when `out_shp` is
omitted — is all zeros before the kernel writes, and carries the input's
element type when `preserve_dtype` is set and float32 otherwise. -/
theorem transform_allocates_spec (A : Volume) (T : Matrix (Fin 4) (Fin 4) ℚ)
    (m : String) (pd : Bool) (oshp : Option (ℤ × ℤ × ℤ)) (bsz bsy bsx : ℕ)
    (res : TransformResult)
    (h : transform A T m pd oshp bsz bsy bsx = Except.ok res) :
    (oshp = none → res.outShape = output_shape_for_transform T
        ((A.shape.1 : ℤ), (A.shape.2.1 : ℤ), (A.shape.2.2 : ℤ))) ∧
    (∀ s, oshp = some s → res.outShape = s) ∧
    res.outDtype = (if pd then A.dtype else Dtype.float32) ∧
    (∀ ix, res.outData ix = 0) := by
  cases hA : A.onDevice with
  | false => rw [transform.eq_def, hA] at h; simp at h
  | true =>
    cases hk : _get_kernel A.dtype m pd with
    | error e => rw [transform.eq_def, hA] at h; simp [hk] at h
    | ok ko =>
      cases ko with
      | none => rw [transform.eq_def, hA] at h; simp [hk] at h
      | some k =>
        cases oshp with
        | none =>
          rw [transform.eq_def, hA] at h
          simp only [hk, if_true, Except.ok.injEq] at h
          subst h
          refine ⟨fun _ => rfl, ?_, rfl, fun ix => rfl⟩
          intro s hs
          exact absurd hs (by simp)
        | some s0 =>
          rw [transform.eq_def, hA] at h
          simp only [hk, if_true, Except.ok.injEq] at h
          subst h
          refine ⟨?_, ?_, rfl, fun ix => rfl⟩
          · intro hno; exact absurd hno (by simp)
          · intro s hs
            cases hs
            rfl

/-- The concrete result record produced by `transform` on `tvol` with an
explicit output shape. -/
def tres : TransformResult :=
  { kernel := ("linear", "affineTransformLerpUShort"),
    launch := ((1, 1, 1), (8, 8, 8)),
    outShape := (5, 6, 7),
    outDtype := Dtype.uint16,
    outData := fun _ => 0 }

/-- Witness for C7: a concrete uint16 device volume, linear kernel with
`preserve_dtype`, explicit output shape (5,6,7). -/
theorem transform_allocates_spec_witness :
    transform tvol 1 "linear" true (some (5, 6, 7)) 8 8 8 = Except.ok tres ∧
    (tres.outShape = (5, 6, 7) ∧ tres.outDtype = Dtype.uint16 ∧
      tres.outData (0, 0, 0) = 0) := by
  have h : transform tvol 1 "linear" true (some (5, 6, 7)) 8 8 8 = Except.ok tres := rfl
  obtain ⟨-, h2, h3, h4⟩ :=
    transform_allocates_spec tvol 1 "linear" true (some (5, 6, 7)) 8 8 8 tres h
  exact ⟨h, h2 (5, 6, 7) rfl, by simpa using h3, h4 (0, 0, 0)⟩

/-- A float32 device volume for the distributed coordinator scenario. -/
def dvol : Volume := { shape := (10, 10, 10), dtype := Dtype.float32, onDevice := true }

/-- C8: the distributed coordinator is an unfinished stub.  On a valid
run (device input, float32, linear, output shape (10,10,10), chunk size
4, two GPUs) the body builds the output array, computes all 27 chunk
windows and fills the GPU queue, but the list of dispatched worker tasks
is empty — the function ends without submitting any work — and the
per-chunk worker `_transform_chunk` unconditionally raises
`NotImplementedError`. -/
theorem transform_distributed_is_stub :
    ∃ st, _transform_distributed dvol "out.zarr" 1 "linear" false
        (some (10, 10, 10)) (Sum.inl 4) (8, 8, 8) 2 = Except.ok (some st) ∧
      st.dispatched = [] ∧ st.chunks.length = 27 ∧ st.gpuQueue = [0, 1] ∧
      _transform_chunk dvol dvol 1 "linear" false (8, 8, 8) ((0, 4), (0, 4), (0, 4)) =
        Except.error "NotImplementedError" := by
  refine ⟨_, rfl, rfl, by decide, by decide, rfl⟩


/-- The quadratic form of a 3×3 matrix written out entrywise. -/
theorem quad_form3 (G : Matrix (Fin 3) (Fin 3) ℝ) (x : Fin 3 → ℝ) :
    x ⬝ᵥ G *ᵥ x =
      G 0 0 * x 0 * x 0 + G 0 1 * x 0 * x 1 + G 0 2 * x 0 * x 2 +
      G 1 0 * x 1 * x 0 + G 1 1 * x 1 * x 1 + G 1 2 * x 1 * x 2 +
      G 2 0 * x 2 * x 0 + G 2 1 * x 2 * x 1 + G 2 2 * x 2 * x 2 := by
  simp [Matrix.dotProduct, Matrix.mulVec, Fin.sum_univ_three]
  ring

/-- When the linear block is invertible its Gram matrix is positive
definite. -/
theorem gram_quad_pos (A : Matrix (Fin 4) (Fin 4) ℝ) (h : (RZS A).det ≠ 0)
    (x : Fin 3 → ℝ) (hx : x ≠ 0) : 0 < x ⬝ᵥ gram A *ᵥ x := by
  unfold gram
  rw [← Matrix.mulVec_mulVec, Matrix.dotProduct_mulVec, Matrix.vecMul_transpose]
  have hmx : RZS A *ᵥ x ≠ 0 := by
    intro h0
    exact hx (Matrix.eq_zero_of_mulVec_eq_zero h h0)
  have hnn : 0 ≤ (RZS A *ᵥ x) ⬝ᵥ (RZS A *ᵥ x) := by
    unfold Matrix.dotProduct
    exact Finset.sum_nonneg fun i _ => mul_self_nonneg _
  rcases lt_or_eq_of_le hnn with hlt | heq
  · exact hlt
  · exact absurd ((Matrix.dotProduct_self_eq_zero).mp heq.symm) hmx

/-- The Gram matrix is symmetric. -/
theorem gram_symm (A : Matrix (Fin 4) (Fin 4) ℝ) (i j : Fin 3) :
    gram A i j = gram A j i := by
  have ht : (gram A)ᵀ = gram A := by
    unfold gram
    rw [Matrix.transpose_mul, Matrix.transpose_transpose]
  calc gram A i j = (gram A)ᵀ j i := (Matrix.transpose_apply _ _ _).symm
  _ = gram A j i := by rw [ht]

/-- First Cholesky pivot: the (0,0) Gram entry is positive. -/
theorem g00_pos (A : Matrix (Fin 4) (Fin 4) ℝ) (h : (RZS A).det ≠ 0) :
    0 < gram A 0 0 := by
  have hx : (![1, 0, 0] : Fin 3 → ℝ) ≠ 0 := by
    intro hh
    have h0 := congrFun hh 0
    simp at h0
  have hq := gram_quad_pos A h ![1, 0, 0] hx
  have e0 : (![1, 0, 0] : Fin 3 → ℝ) 0 = 1 := rfl
  have e1 : (![1, 0, 0] : Fin 3 → ℝ) 1 = 0 := rfl
  have e2 : (![1, 0, 0] : Fin 3 → ℝ) 2 = 0 := rfl
  rw [quad_form3, e0, e1, e2] at hq
  nlinarith [hq]

/-- Scalar helper for the second pivot. -/
theorem det2_aux (g00 g10 g20 g11 g21 g22 : ℝ) (h0 : 0 < g00)
    (hq : 0 < g00 * -g10 * -g10 + g10 * -g10 * g00 + g20 * -g10 * 0 +
      g10 * g00 * -g10 + g11 * g00 * g00 + g21 * g00 * 0 +
      g20 * 0 * -g10 + g21 * 0 * g00 + g22 * 0 * 0) :
    0 < g00 * g11 - g10 ^ 2 := by
  nlinarith [hq, h0]

/-- Second Cholesky pivot: the leading 2×2 minor of the Gram matrix is
positive. -/
theorem det2_pos (A : Matrix (Fin 4) (Fin 4) ℝ) (h : (RZS A).det ≠ 0) :
    0 < gram A 0 0 * gram A 1 1 - gram A 1 0 ^ 2 := by
  have hg00 := g00_pos A h
  have hx : (![-gram A 1 0, gram A 0 0, 0] : Fin 3 → ℝ) ≠ 0 := by
    intro hh
    have h1 := congrFun hh 1
    have e : (![-gram A 1 0, gram A 0 0, 0] : Fin 3 → ℝ) 1 = gram A 0 0 := rfl
    rw [e] at h1
    exact hg00.ne' (by simpa using h1)
  have hq := gram_quad_pos A h ![-gram A 1 0, gram A 0 0, 0] hx
  have e0 : (![-gram A 1 0, gram A 0 0, 0] : Fin 3 → ℝ) 0 = -gram A 1 0 := rfl
  have e1 : (![-gram A 1 0, gram A 0 0, 0] : Fin 3 → ℝ) 1 = gram A 0 0 := rfl
  have e2 : (![-gram A 1 0, gram A 0 0, 0] : Fin 3 → ℝ) 2 = 0 := rfl
  rw [quad_form3, e0, e1, e2, gram_symm A 0 1, gram_symm A 0 2, gram_symm A 1 2] at hq
  exact det2_aux _ _ _ _ _ _ hg00 hq

/-- Scalar Schur-complement inequality for the third pivot. -/
theorem schur3 (g00 g10 g20 g11 g21 g22 : ℝ) (h0 : 0 < g00)
    (h2 : 0 < g00 * g11 - g10 ^ 2)
    (hq : 0 < g00 * (g10 * g21 - g11 * g20) * (g10 * g21 - g11 * g20) +
      g10 * (g10 * g21 - g11 * g20) * (g10 * g20 - g00 * g21) +
      g20 * (g10 * g21 - g11 * g20) * (g00 * g11 - g10 ^ 2) +
      g10 * (g10 * g20 - g00 * g21) * (g10 * g21 - g11 * g20) +
      g11 * (g10 * g20 - g00 * g21) * (g10 * g20 - g00 * g21) +
      g21 * (g10 * g20 - g00 * g21) * (g00 * g11 - g10 ^ 2) +
      g20 * (g00 * g11 - g10 ^ 2) * (g10 * g21 - g11 * g20) +
      g21 * (g00 * g11 - g10 ^ 2) * (g10 * g20 - g00 * g21) +
      g22 * (g00 * g11 - g10 ^ 2) * (g00 * g11 - g10 ^ 2)) :
    0 < g22 - g20 ^ 2 / g00 - (g21 - g20 * g10 / g00) ^ 2 / (g11 - g10 ^ 2 / g00) := by
  have e : g11 - g10 ^ 2 / g00 = (g00 * g11 - g10 ^ 2) / g00 := by
    field_simp
    ring
  have hd2 : 0 < g11 - g10 ^ 2 / g00 := by
    rw [e]
    exact div_pos h2 h0
  have key : g22 - g20 ^ 2 / g00 - (g21 - g20 * g10 / g00) ^ 2 / (g11 - g10 ^ 2 / g00) =
      (g00 * (g10 * g21 - g11 * g20) * (g10 * g21 - g11 * g20) +
       g10 * (g10 * g21 - g11 * g20) * (g10 * g20 - g00 * g21) +
       g20 * (g10 * g21 - g11 * g20) * (g00 * g11 - g10 ^ 2) +
       g10 * (g10 * g20 - g00 * g21) * (g10 * g21 - g11 * g20) +
       g11 * (g10 * g20 - g00 * g21) * (g10 * g20 - g00 * g21) +
       g21 * (g10 * g20 - g00 * g21) * (g00 * g11 - g10 ^ 2) +
       g20 * (g00 * g11 - g10 ^ 2) * (g10 * g21 - g11 * g20) +
       g21 * (g00 * g11 - g10 ^ 2) * (g10 * g20 - g00 * g21) +
       g22 * (g00 * g11 - g10 ^ 2) * (g00 * g11 - g10 ^ 2)) /
      ((g00 * g11 - g10 ^ 2) ^ 2) := by
    rw [e]
    field_simp [h0.ne', h2.ne']
    ring
  rw [key]
  exact div_pos hq (pow_pos h2 2)

/-- The second diagonal discriminant in Gram entries. -/
theorem cholD2_eq (A : Matrix (Fin 4) (Fin 4) ℝ) (h : (RZS A).det ≠ 0) :
    cholD2 (gram A) = gram A 1 1 - gram A 1 0 ^ 2 / gram A 0 0 := by
  have hg00 := g00_pos A h
  unfold cholD2 cholL21 cholL11
  rw [div_pow, Real.sq_sqrt hg00.le]

/-- The second diagonal discriminant is positive. -/
theorem cholD2_pos (A : Matrix (Fin 4) (Fin 4) ℝ) (h : (RZS A).det ≠ 0) :
    0 < cholD2 (gram A) := by
  have hg00 := g00_pos A h
  have h2 := det2_pos A h
  rw [cholD2_eq A h]
  have e : gram A 1 1 - gram A 1 0 ^ 2 / gram A 0 0 =
      (gram A 0 0 * gram A 1 1 - gram A 1 0 ^ 2) / gram A 0 0 := by
    field_simp
    ring
  rw [e]
  exact div_pos h2 hg00

/-- Product of the two sub-diagonal factor entries. -/
theorem cholL31L21 (A : Matrix (Fin 4) (Fin 4) ℝ) (h : (RZS A).det ≠ 0) :
    cholL31 (gram A) * cholL21 (gram A) = gram A 2 0 * gram A 1 0 / gram A 0 0 := by
  have hg00 := g00_pos A h
  unfold cholL31 cholL21 cholL11
  rw [div_mul_div_comm, Real.mul_self_sqrt hg00.le]

/-- Square of the (2,0) factor entry. -/
theorem cholL31_sq (A : Matrix (Fin 4) (Fin 4) ℝ) (h : (RZS A).det ≠ 0) :
    cholL31 (gram A) ^ 2 = gram A 2 0 ^ 2 / gram A 0 0 := by
  have hg00 := g00_pos A h
  unfold cholL31 cholL11
  rw [div_pow, Real.sq_sqrt hg00.le]

/-- Square of the (2,1) factor entry. -/
theorem cholL32_sq (A : Matrix (Fin 4) (Fin 4) ℝ) (h : (RZS A).det ≠ 0) :
    cholL32 (gram A) ^ 2 =
      (gram A 2 1 - gram A 2 0 * gram A 1 0 / gram A 0 0) ^ 2 /
        (gram A 1 1 - gram A 1 0 ^ 2 / gram A 0 0) := by
  have hd2 := cholD2_pos A h
  unfold cholL32 cholL22
  rw [div_pow, Real.sq_sqrt hd2.le, cholL31L21 A h, cholD2_eq A h]

/-- The third diagonal discriminant in Gram entries. -/
theorem cholD3_eq (A : Matrix (Fin 4) (Fin 4) ℝ) (h : (RZS A).det ≠ 0) :
    cholD3 (gram A) = gram A 2 2 - gram A 2 0 ^ 2 / gram A 0 0 -
      (gram A 2 1 - gram A 2 0 * gram A 1 0 / gram A 0 0) ^ 2 /
        (gram A 1 1 - gram A 1 0 ^ 2 / gram A 0 0) := by
  unfold cholD3
  rw [cholL31_sq A h, cholL32_sq A h]

/-- The third diagonal discriminant is positive. -/
theorem cholD3_pos (A : Matrix (Fin 4) (Fin 4) ℝ) (h : (RZS A).det ≠ 0) :
    0 < cholD3 (gram A) := by
  have hg00 := g00_pos A h
  have h2 := det2_pos A h
  rw [cholD3_eq A h]
  have hx : (![gram A 1 0 * gram A 2 1 - gram A 1 1 * gram A 2 0,
      gram A 1 0 * gram A 2 0 - gram A 0 0 * gram A 2 1,
      gram A 0 0 * gram A 1 1 - gram A 1 0 ^ 2] : Fin 3 → ℝ) ≠ 0 := by
    intro hh
    have h2c := congrFun hh 2
    have e2 : (![gram A 1 0 * gram A 2 1 - gram A 1 1 * gram A 2 0,
        gram A 1 0 * gram A 2 0 - gram A 0 0 * gram A 2 1,
        gram A 0 0 * gram A 1 1 - gram A 1 0 ^ 2] : Fin 3 → ℝ) 2 =
        gram A 0 0 * gram A 1 1 - gram A 1 0 ^ 2 := rfl
    rw [e2] at h2c
    exact h2.ne' (by simpa using h2c)
  have hq := gram_quad_pos A h (![gram A 1 0 * gram A 2 1 - gram A 1 1 * gram A 2 0,
      gram A 1 0 * gram A 2 0 - gram A 0 0 * gram A 2 1,
      gram A 0 0 * gram A 1 1 - gram A 1 0 ^ 2]) hx
  have e0 : (![gram A 1 0 * gram A 2 1 - gram A 1 1 * gram A 2 0,
      gram A 1 0 * gram A 2 0 - gram A 0 0 * gram A 2 1,
      gram A 0 0 * gram A 1 1 - gram A 1 0 ^ 2] : Fin 3 → ℝ) 0 =
      gram A 1 0 * gram A 2 1 - gram A 1 1 * gram A 2 0 := rfl
  have e1 : (![gram A 1 0 * gram A 2 1 - gram A 1 1 * gram A 2 0,
      gram A 1 0 * gram A 2 0 - gram A 0 0 * gram A 2 1,
      gram A 0 0 * gram A 1 1 - gram A 1 0 ^ 2] : Fin 3 → ℝ) 1 =
      gram A 1 0 * gram A 2 0 - gram A 0 0 * gram A 2 1 := rfl
  have e2 : (![gram A 1 0 * gram A 2 1 - gram A 1 1 * gram A 2 0,
      gram A 1 0 * gram A 2 0 - gram A 0 0 * gram A 2 1,
      gram A 0 0 * gram A 1 1 - gram A 1 0 ^ 2] : Fin 3 → ℝ) 2 =
      gram A 0 0 * gram A 1 1 - gram A 1 0 ^ 2 := rfl
  rw [quad_form3, e0, e1, e2, gram_symm A 0 1, gram_symm A 0 2, gram_symm A 1 2] at hq
  exact schur3 _ _ _ _ _ _ hg00 h2 hq

/-- The closed-form factor reconstructs the Gram matrix: `ZSᵀ · ZS = G`. -/
theorem cholZS_mul_self (A : Matrix (Fin 4) (Fin 4) ℝ) (h : (RZS A).det ≠ 0) :
    (cholZS (gram A))ᵀ * cholZS (gram A) = gram A := by
  have hg00 := g00_pos A h
  have hd2 := cholD2_pos A h
  have hd3 := cholD3_pos A h
  have hl11 : cholL11 (gram A) ≠ 0 := by
    unfold cholL11
    exact (Real.sqrt_pos.mpr hg00).ne'
  have hl22 : cholL22 (gram A) ≠ 0 := (Real.sqrt_pos.mpr hd2).ne'
  ext i j
  rw [Matrix.mul_apply]
  simp only [Matrix.transpose_apply]
  rw [Fin.sum_univ_three]
  fin_cases i <;> fin_cases j <;>
    simp [cholZS, Matrix.vecHead, Matrix.vecTail]
  · unfold cholL11
    exact Real.mul_self_sqrt hg00.le
  · rw [gram_symm A 0 1]
    unfold cholL21
    field_simp
  · rw [gram_symm A 0 2]
    unfold cholL31
    field_simp
  · unfold cholL21
    exact div_mul_cancel₀ _ hl11
  · unfold cholL22
    rw [Real.mul_self_sqrt hd2.le]
    unfold cholD2
    ring
  · rw [gram_symm A 1 2]
    unfold cholL32
    field_simp
    ring
  · unfold cholL31
    exact div_mul_cancel₀ _ hl11
  · unfold cholL32
    field_simp
  · unfold cholL33
    rw [Real.mul_self_sqrt hd3.le]
    unfold cholD3
    ring

/-- Determinant of the upper-triangular factor. -/
theorem cholZS_det (G : Matrix (Fin 3) (Fin 3) ℝ) :
    (cholZS G).det = cholL11 G * cholL22 G * cholL33 G := by
  rw [Matrix.det_fin_three]
  simp [cholZS, Matrix.vecHead, Matrix.vecTail]

/-- The factor's determinant is positive (positive diagonal). -/
theorem cholZS_det_pos (A : Matrix (Fin 4) (Fin 4) ℝ) (h : (RZS A).det ≠ 0) :
    0 < (cholZS (gram A)).det := by
  rw [cholZS_det]
  have h1 : 0 < cholL11 (gram A) := by
    unfold cholL11
    exact Real.sqrt_pos.mpr (g00_pos A h)
  have h2 : 0 < cholL22 (gram A) := Real.sqrt_pos.mpr (cholD2_pos A h)
  have h3 : 0 < cholL33 (gram A) := Real.sqrt_pos.mpr (cholD3_pos A h)
  exact mul_pos (mul_pos h1 h2) h3

/-- `diag(Z) · ShearMatrix(S) = ZS`: the zoom/shear split reassembles the
triangular factor. -/
theorem diag_shear (G : Matrix (Fin 3) (Fin 3) ℝ)
    (h0 : cholZS G 0 0 ≠ 0) (h1 : cholZS G 1 1 ≠ 0) :
    Matrix.diagonal (fun i => cholZS G i i) *
      shearMatrix (cholZS G 0 1 / cholZS G 0 0, cholZS G 0 2 / cholZS G 0 0,
        cholZS G 1 2 / cholZS G 1 1) = cholZS G := by
  have h0' : cholL11 G ≠ 0 := h0
  have h1' : cholL22 G ≠ 0 := h1
  ext i j
  rw [Matrix.mul_apply, Fin.sum_univ_three]
  fin_cases i <;> fin_cases j <;>
    simp [Matrix.diagonal, shearMatrix, cholZS, Matrix.vecHead, Matrix.vecTail]
  · rw [mul_comm]
    exact div_mul_cancel₀ _ h0'
  · rw [mul_comm]
    exact div_mul_cancel₀ _ h0'
  · rw [mul_comm]
    exact div_mul_cancel₀ _ h1'

/-- Negating the first row of the factor is left multiplication by
`diag(-1,1,1)`. -/
theorem flip_eq_diag_mul (G : Matrix (Fin 3) (Fin 3) ℝ) :
    Matrix.updateRow (cholZS G) 0 (fun j => -cholZS G 0 j) =
      Matrix.diagonal (![(-1 : ℝ), 1, 1]) * cholZS G := by
  ext i j
  rw [Matrix.mul_apply, Fin.sum_univ_three]
  fin_cases i <;>
    simp [Matrix.updateRow_apply, Matrix.diagonal, Matrix.vecHead, Matrix.vecTail]

/-- The sign-flip matrix squares to the identity. -/
theorem flipD_sq :
    Matrix.diagonal (![(-1 : ℝ), 1, 1]) * Matrix.diagonal (![(-1 : ℝ), 1, 1]) = 1 := by
  ext i j
  rw [Matrix.mul_apply, Fin.sum_univ_three]
  fin_cases i <;> fin_cases j <;>
    norm_num [Matrix.diagonal, Matrix.one_apply, Matrix.vecHead, Matrix.vecTail,
      Fin.ext_iff]

/-- The sign-flip matrix has determinant −1. -/
theorem flipD_det : (Matrix.diagonal (![(-1 : ℝ), 1, 1])).det = -1 := by
  rw [Matrix.det_diagonal]
  norm_num [Fin.prod_univ_three]

/-- The row-negated factor still reconstructs the Gram matrix. -/
theorem flip_mul_self (A : Matrix (Fin 4) (Fin 4) ℝ) (h : (RZS A).det ≠ 0) :
    (Matrix.updateRow (cholZS (gram A)) 0 (fun j => -cholZS (gram A) 0 j))ᵀ *
      Matrix.updateRow (cholZS (gram A)) 0 (fun j => -cholZS (gram A) 0 j) = gram A := by
  rw [flip_eq_diag_mul, Matrix.transpose_mul, Matrix.diagonal_transpose]
  rw [Matrix.mul_assoc, ← Matrix.mul_assoc (Matrix.diagonal _) (Matrix.diagonal _)
    (cholZS (gram A)), flipD_sq, Matrix.one_mul, cholZS_mul_self A h]

/-- The row-negated factor has the opposite determinant. -/
theorem flip_det (G : Matrix (Fin 3) (Fin 3) ℝ) :
    (Matrix.updateRow (cholZS G) 0 (fun j => -cholZS G 0 j)).det = -(cholZS G).det := by
  rw [flip_eq_diag_mul, Matrix.det_mul, flipD_det]
  ring

/-- With the first zoom negated, `diag(Z) · ShearMatrix(S)` reassembles the
row-negated factor (the shears are unchanged). -/
theorem flip_diag_shear (G : Matrix (Fin 3) (Fin 3) ℝ)
    (h0 : cholZS G 0 0 ≠ 0) (h1 : cholZS G 1 1 ≠ 0) :
    Matrix.diagonal (Function.update (fun i => cholZS G i i) 0 (-cholZS G 0 0)) *
      shearMatrix (cholZS G 0 1 / cholZS G 0 0, cholZS G 0 2 / cholZS G 0 0,
        cholZS G 1 2 / cholZS G 1 1) =
      Matrix.updateRow (cholZS G) 0 (fun j => -cholZS G 0 j) := by
  have h0' : cholL11 G ≠ 0 := h0
  have h1' : cholL22 G ≠ 0 := h1
  ext i j
  rw [Matrix.mul_apply, Fin.sum_univ_three]
  fin_cases i <;> fin_cases j <;>
    simp [Matrix.diagonal, shearMatrix, cholZS, Matrix.updateRow_apply,
      Function.update, Matrix.vecHead, Matrix.vecTail]
  · field_simp
  · field_simp
  · field_simp

/-- C1: for every 4×4 affine matrix whose linear block `RZS` is invertible
(equivalently, whose Gram matrix is positive definite), the decomposition
satisfies `R · diag(Z) · ShearMatrix(S) = RZS` and `det R = 1` exactly —
in both the plain branch and the sign-correction branch taken when the
initial factorisation yields `det R < 0`. -/
theorem decompose_transform_reconstructs (A : Matrix (Fin 4) (Fin 4) ℝ)
    (h : (RZS A).det ≠ 0) :
    (decompose_transform A).2.1 * Matrix.diagonal (decompose_transform A).2.2.1 *
        shearMatrix (decompose_transform A).2.2.2 = RZS A ∧
      ((decompose_transform A).2.1).det = 1 := by
  have hG := cholZS_mul_self A h
  have hdetZS := cholZS_det_pos A h
  have hZ0 : cholZS (gram A) 0 0 ≠ 0 := by
    show cholL11 (gram A) ≠ 0
    unfold cholL11
    exact (Real.sqrt_pos.mpr (g00_pos A h)).ne'
  have hZ1 : cholZS (gram A) 1 1 ≠ 0 := by
    show cholL22 (gram A) ≠ 0
    exact (Real.sqrt_pos.mpr (cholD2_pos A h)).ne'
  have hdet2 : (RZS A).det ^ 2 = (cholZS (gram A)).det ^ 2 := by
    have h1 : (gram A).det = (RZS A).det ^ 2 := by
      unfold gram
      rw [Matrix.det_mul, Matrix.det_transpose]
      ring
    have h2 : (gram A).det = (cholZS (gram A)).det ^ 2 := by
      conv_lhs => rw [← hG]
      rw [Matrix.det_mul, Matrix.det_transpose]
      ring
    rw [← h1, h2]
  have huZS : IsUnit (cholZS (gram A)).det := isUnit_iff_ne_zero.mpr hdetZS.ne'
  have hR0det : (RZS A * (cholZS (gram A))⁻¹).det =
      (RZS A).det * ((cholZS (gram A)).det)⁻¹ := by
    rw [Matrix.det_mul, Matrix.det_nonsing_inv, Ring.inverse_eq_inv']
  have hR0sq : ((RZS A * (cholZS (gram A))⁻¹).det) ^ 2 = 1 := by
    rw [hR0det]
    rw [mul_pow, inv_pow, ← hdet2]
    field_simp
  have hR0pm : (RZS A * (cholZS (gram A))⁻¹).det = 1 ∨
      (RZS A * (cholZS (gram A))⁻¹).det = -1 := by
    have hsq := hR0sq
    rw [sq] at hsq
    exact mul_self_eq_one_iff.mp hsq
  have hDS := diag_shear (gram A) hZ0 hZ1
  have hRrec : RZS A * (cholZS (gram A))⁻¹ * cholZS (gram A) = RZS A := by
    rw [Matrix.mul_assoc, Matrix.nonsing_inv_mul _ huZS, Matrix.mul_one]
  have hdZS2 : (Matrix.updateRow (cholZS (gram A)) 0
      (fun j => -cholZS (gram A) 0 j)).det = -(cholZS (gram A)).det := flip_det (gram A)
  have huZS2 : IsUnit (Matrix.updateRow (cholZS (gram A)) 0
      (fun j => -cholZS (gram A) 0 j)).det := by
    rw [hdZS2]
    exact isUnit_iff_ne_zero.mpr (neg_ne_zero.mpr hdetZS.ne')
  have hR2rec : RZS A * (Matrix.updateRow (cholZS (gram A)) 0
      (fun j => -cholZS (gram A) 0 j))⁻¹ *
      Matrix.updateRow (cholZS (gram A)) 0 (fun j => -cholZS (gram A) 0 j) = RZS A := by
    rw [Matrix.mul_assoc, Matrix.nonsing_inv_mul _ huZS2, Matrix.mul_one]
  have hR2det : (RZS A * (Matrix.updateRow (cholZS (gram A)) 0
      (fun j => -cholZS (gram A) 0 j))⁻¹).det =
      -((RZS A * (cholZS (gram A))⁻¹).det) := by
    rw [Matrix.det_mul, Matrix.det_nonsing_inv, hdZS2, Ring.inverse_eq_inv', inv_neg,
      hR0det]
    ring
  have hDS2 := flip_diag_shear (gram A) hZ0 hZ1
  unfold decompose_transform
  dsimp only
  split_ifs with hflip
  · refine ⟨?_, ?_⟩
    · dsimp only
      rw [Matrix.mul_assoc, hDS2]
      exact hR2rec
    · dsimp only
      rw [hR2det]
      rcases hR0pm with h1 | h1
      · exfalso
        rw [h1] at hflip
        linarith
      · rw [h1]
        norm_num
  · refine ⟨?_, ?_⟩
    · dsimp only
      rw [Matrix.mul_assoc, hDS]
      exact hRrec
    · dsimp only
      rcases hR0pm with h1 | h1
      · exact h1
      · exfalso
        exact hflip (by rw [h1]; norm_num)

/-- The linear block of the 4×4 identity is the 3×3 identity. -/
theorem RZS_one : RZS (1 : Matrix (Fin 4) (Fin 4) ℝ) = 1 := by
  ext i j
  simp [RZS, Matrix.one_apply, Fin.castSucc_inj]

/-- Witness for C1 at the identity matrix. -/
theorem decompose_transform_reconstructs_witness :
    (RZS (1 : Matrix (Fin 4) (Fin 4) ℝ)).det ≠ 0 ∧
    ((decompose_transform 1).2.1 * Matrix.diagonal (decompose_transform 1).2.2.1 *
        shearMatrix (decompose_transform 1).2.2.2 = RZS 1 ∧
      ((decompose_transform 1).2.1).det = 1) := by
  have hd : (RZS (1 : Matrix (Fin 4) (Fin 4) ℝ)).det ≠ 0 := by
    rw [RZS_one, Matrix.det_one]
    norm_num
  exact ⟨hd, decompose_transform_reconstructs 1 hd⟩

end PySpim
